import Mathlib

/-!
Verification of the Inspector Surface orchestration engine
(`src/assets/ui/js/inspector.surface.js`).

The JavaScript value domain is shallowly embedded as `JSValue`:
`undefined` is the constructor `undef` (JS property access on a missing key
yields `undefined`, so map access returns `undef` for absent keys), JS numbers
are modelled as integers (no claim involves fractional values), JS objects are
modelled as association lists in insertion order (JS objects preserve key
insertion order for string keys; assignment to an existing key keeps its
position, assignment to a new key appends, `delete` removes the entry), and
the unique sentinel object `$.oc.inspector.removedProperty = {removed: true}`
is the dedicated constructor `removed`, so that the reference-identity test
`value === $.oc.inspector.removedProperty` is constructor equality.
Array values are not modelled (no claim involves them).
-/

inductive JSValue : Type where
  | undef : JSValue
  | null : JSValue
  | bool : Bool → JSValue
  | num : Int → JSValue
  | str : String → JSValue
  | obj : List (String × JSValue) → JSValue
  | removed : JSValue

mutual

/-- Structural equality test for `JSValue` (the derive handler does not
support this nested inductive). -/
def beqVal : JSValue → JSValue → Bool
  | .undef, .undef => true
  | .null, .null => true
  | .bool a, .bool b => a == b
  | .num a, .num b => a == b
  | .str a, .str b => a == b
  | .obj a, .obj b => beqEntries a b
  | .removed, .removed => true
  | _, _ => false

/-- Structural equality test for object bodies. -/
def beqEntries : List (String × JSValue) → List (String × JSValue) → Bool
  | [], [] => true
  | (k, v) :: r, (k', v') :: r' => k == k' && beqVal v v' && beqEntries r r'
  | _, _ => false

end

mutual

theorem beqVal_iff : ∀ a b : JSValue, beqVal a b = true ↔ a = b
  | a, b => by
    cases a <;> cases b <;>
      first
        | (simp only [beqVal, JSValue.obj.injEq]; exact beqEntries_iff _ _)
        | simp [beqVal]

theorem beqEntries_iff : ∀ a b : List (String × JSValue), beqEntries a b = true ↔ a = b
  | [], [] => by simp [beqEntries]
  | [], _ :: _ => by simp [beqEntries]
  | _ :: _, [] => by simp [beqEntries]
  | (k, v) :: r, (k', v') :: r' => by
    simp only [beqEntries, Bool.and_eq_true, beq_iff_eq, List.cons.injEq, Prod.mk.injEq]
    rw [beqVal_iff, beqEntries_iff]

end

instance : BEq JSValue := ⟨beqVal⟩

instance : LawfulBEq JSValue where
  eq_of_beq h := (beqVal_iff _ _).mp h
  rfl := (beqVal_iff _ _).mpr rfl

instance : DecidableEq JSValue :=
  fun a b => decidable_of_iff (beqVal a b = true) (beqVal_iff a b)

/-- A JS object used as a string-keyed map, in insertion order. -/
abbrev ValueMap := List (String × JSValue)

/-- JS property read `m[k]`: the first entry for `k`, or `undefined` when absent. -/
def objGet (m : ValueMap) (k : String) : JSValue :=
  match m with
  | [] => .undef
  | (k', v) :: rest => if k' = k then v else objGet rest k

/-- First entry for `k` as an `Option` (`none` means the key is absent). -/
def objLookup (m : ValueMap) (k : String) : Option JSValue :=
  match m with
  | [] => none
  | (k', v) :: rest => if k' = k then some v else objLookup rest k

/-- JS property write `m[k] = v`: update the existing entry in place, else append. -/
def objSet (m : ValueMap) (k : String) (v : JSValue) : ValueMap :=
  match m with
  | [] => [(k, v)]
  | (k', v') :: rest => if k' = k then (k, v) :: rest else (k', v') :: objSet rest k v

/-- JS `delete m[k]`: remove the entry for `k`. -/
def objDelete (m : ValueMap) (k : String) : ValueMap :=
  m.filter (fun e => !(e.1 = k : Bool))

/-- The keys of a map are pairwise distinct. This always holds for maps that
come from JS objects (a JS object cannot hold two entries with the same key);
it is stated as a hypothesis where a theorem needs it. -/
def NodupKeys (m : ValueMap) : Prop :=
  (m.map Prod.fst).Nodup

instance (m : ValueMap) : Decidable (NodupKeys m) := by
  unfold NodupKeys; infer_instance

mutual

/-- JSON-serialization normal form of a value: `JSON.stringify` omits
object entries whose value is `undefined`, and serializes the sentinel
`removedProperty` object exactly like the plain object `\x7bremoved: true\x7d`.
Two values have equal `JSON.stringify` output iff their normal forms are equal,
so the source's serialize-and-compare tests are embedded as equality of
normal forms. -/
def normalizeVal : JSValue → JSValue
  | .obj m => .obj (normalizeEntries m)
  | .removed => .obj [("removed", .bool true)]
  | v => v

/-- JSON-serialization normal form of an object body: entries with
`undefined` values are dropped, remaining values are normalized. -/
def normalizeEntries : List (String × JSValue) → List (String × JSValue)
  | [] => []
  | (_, .undef) :: rest => normalizeEntries rest
  | (k, v) :: rest => (k, normalizeVal v) :: normalizeEntries rest

end

/-- JS `typeof x == 'object'`: true for plain objects, the sentinel object,
and `null`. -/
def typeofObject : JSValue → Bool
  | .obj _ => true
  | .removed => true
  | .null => true
  | _ => false

/-- Equality of `JSON.stringify` outputs, as equality of serialization
normal forms. -/
def stringifyEq (a b : JSValue) : Bool :=
  normalizeVal a == normalizeVal b

/-- JS `ToNumber` on the modelled domain (`none` is `NaN`). Numeric strings
are modelled for integer literals only, since `num` carries an integer. -/
def jsToNumber : JSValue → Option Int
  | .num n => some n
  | .bool b => some (if b then 1 else 0)
  | .null => some 0
  | .str s => if s.trim = "" then some 0 else s.trim.toInt?
  | _ => none

/-- JS `ToPrimitive` of an object for `==` against a primitive: a plain
object (and the sentinel, which is a plain object) converts to the string
`[object Object]`. Other values are already primitive. -/
def jsPrim : JSValue → JSValue
  | .obj _ => .str ("[object Object]")
  | .removed => .str ("[object Object]")
  | v => v

/-- JS loose equality `==` on the modelled domain. Two distinct plain
objects compare by reference, modelled as `false` for two `obj` values
(the only same-reference object the model can name is the sentinel);
this branch is unreachable from `comparePropertyValues`, which diverts
object/object pairs to the serialize-and-compare branch first. -/
def jsLooseEq (a b : JSValue) : Bool :=
  match a, b with
  | .undef, .undef => true
  | .undef, .null => true
  | .null, .undef => true
  | .null, .null => true
  | .undef, _ => false
  | _, .undef => false
  | .null, _ => false
  | _, .null => false
  | .removed, .removed => true
  | .obj _, .obj _ => false
  | .obj _, .removed => false
  | .removed, .obj _ => false
  | x, y =>
    match jsPrim x, jsPrim y with
    | .str s, .str t => s == t
    | .num n, .num m' => n == m'
    | .bool c, .bool d => c == d
    | .bool c, w => jsToNumber (.bool c) == jsToNumber w
    | w, .bool d => jsToNumber w == jsToNumber (.bool d)
    | .num n, w => some n == jsToNumber w
    | w, .num m' => jsToNumber w == some m'
    | _, _ => false

/-- Embeds `Surface.prototype.comparePropertyValues` (src lines 738-752):
mismatched definedness is `false`; two `typeof 'object'` values compare by
`JSON.stringify`; anything else falls through to JS `==`. -/
def comparePropertyValues (oldValue newValue : JSValue) : Bool :=
  if oldValue == .undef && !(newValue == .undef) then false
  else if !(oldValue == .undef) && newValue == .undef then false
  else if typeofObject oldValue && typeofObject newValue then stringifyEq oldValue newValue
  else jsLooseEq oldValue newValue

/-!
Property definitions and the property parser.
-/

/-- One item of the inspector schema (`properties` array): either a group
marker (`itemType = "group"`) or a property row (`itemType = "property"`).
An absent field of the JS object is `none`. -/
structure PropertyDef : Type where
  property : Option String
  itemType : String
  groupIndex : Option String
  title : String
  type : Option String
  default : Option JSValue
  showExternalParam : Bool
deriving DecidableEq

/-- Result of the property parser: the annotated item list and whether any
group marker was present. -/
structure ParsedProperties : Type where
  properties : List PropertyDef
  hasGroups : Bool
deriving DecidableEq

/-- Modelled from the spec: `$.oc.inspector.engine.processPropertyGroups`
(the PropertyParser lives in a repository file that is not under `src/`).
Single linear pass keeping a current-group-index cursor: a `group` item opens
a new group context and subsequent `property` items inherit that group index
until overridden by an explicit `groupIndex` of their own; `hasGroups` is true
iff at least one `group` item exists. -/
def processPropertyGroupsAux (current : Option String) :
    List PropertyDef → ParsedProperties
  | [] => { properties := [], hasGroups := false }
  | pd :: rest =>
    if pd.itemType = "group" then
      let r := processPropertyGroupsAux pd.groupIndex rest
      { properties := pd :: r.properties, hasGroups := true }
    else
      let annotated :=
        match pd.groupIndex with
        | some _ => pd
        | none => { pd with groupIndex := current }
      let r := processPropertyGroupsAux current rest
      { properties := annotated :: r.properties, hasGroups := r.hasGroups }

/-- Modelled from the spec: entry point of the PropertyParser. -/
def processPropertyGroups (defs : List PropertyDef) : ParsedProperties :=
  processPropertyGroupsAux none defs

/-!
Editors and external parameter editors, by their contracts.

The concrete per-type editor classes and the external parameter editor are
external collaborators (repository files not under `src/`); the Surface code
consumes them only through `getPropertyName()`, `getUndefinedValue()`,
`validate()`, `isEditorVisible()` and `getValue()`, so each is embedded as a
record of those observable responses.
-/

/-- An Editor instance, by the responses the Surface observes from it.
The field `propertyName` is the value of both `getPropertyName()` and
`propertyDefinition.property`; `undefinedValue` is `getUndefinedValue()`;
`validateResult` is the result of `validate()`. -/
structure Editor : Type where
  propertyName : String
  undefinedValue : JSValue
  validateResult : Bool
deriving DecidableEq

/-- An ExternalParameterEditor instance, by the responses the Surface
observes: `getPropertyName()`, `isEditorVisible()`, `getValue()` (the
expression text) and `validate()`. -/
structure ExtEditor : Type where
  propertyName : String
  visible : Bool
  value : String
  validateResult : Bool
deriving DecidableEq

/-- Observable side effects of `setPropertyValue`, in execution order. -/
inductive SEvent : Type where
  | editorNotified : Nat → String → JSValue → SEvent
  | changeCallback : String → JSValue → SEvent
  | displayUpdated : String → JSValue → SEvent
deriving DecidableEq

/-- The Surface state the claims exercise: the parsed schema, the value map
and its construction-time snapshot, the attached editors (in schema order,
as `build` pushes them) and external parameter editors, whether an `onChange`
callback was configured, the set of rows carrying the `changed` CSS marker,
and the log of notification side effects. -/
structure Surface : Type where
  parsedProperties : List PropertyDef
  values : ValueMap
  originalValues : ValueMap
  editors : List Editor
  externalParameterEditors : List ExtEditor
  hasOnChange : Bool
  marked : List String
  events : List SEvent
deriving DecidableEq

/-- Embeds the value-model part of the Surface constructor (src lines 38-71):
`parsedProperties` comes from the parser, a `null` values argument becomes an
empty map, and `originalValues` is `$.extend(true, \x7b\x7d, values)`. On this
pure value domain the deep clone is the identity: its skipping of
`undefined`-valued entries and its cloning of the sentinel object are
unobservable through property access (both read back as `undefined` /
an object with the same serialization). Editors and external editors are the
collaborator instances attached during build. -/
def mkSurface (properties : List PropertyDef) (values : Option ValueMap)
    (editors : List Editor) (externalParameterEditors : List ExtEditor)
    (hasOnChange : Bool) : Surface :=
  { parsedProperties := (processPropertyGroups properties).properties
    values := values.getD []
    originalValues := values.getD []
    editors := editors
    externalParameterEditors := externalParameterEditors
    hasOnChange := hasOnChange
    marked := []
    events := [] }

/-- Embeds `Surface.prototype.findPropertyEditor` (src lines 586-594). -/
def findPropertyEditor (s : Surface) (property : String) : Option Editor :=
  s.editors.find? (fun e => e.propertyName == property)

/-- Embeds `Surface.prototype.findExternalParameterEditor` (src lines 596-604). -/
def findExternalParameterEditor (s : Surface) (property : String) : Option ExtEditor :=
  s.externalParameterEditors.find? (fun e => e.propertyName == property)

/-- Embeds `Surface.prototype.getPropertyValue` (src lines 517-519). -/
def getPropertyValue (s : Surface) (property : String) : JSValue :=
  objGet s.values property

/-- The `changed`-marker update of `Surface.prototype.markPropertyChanged`
(src lines 575-584): add or remove the `changed` CSS class of the row of
`property`, modelled as membership in the marked set. -/
def markPropertyChanged (marked : List String) (property : String)
    (changed : Bool) : List String :=
  if changed then
    if property ∈ marked then marked else marked ++ [property]
  else
    marked.filter (fun q => !(q = property : Bool))

/-- Embeds `Surface.prototype.setPropertyValue` (src lines 521-554) together
with `notifyEditorsPropertyChanged` (src lines 556-562). A defined value is
written into the map, an `undefined` value deletes the key when present.
Unless events are suppressed, the row marker is set according to
`originalValues[property] === undefined || !comparePropertyValues(...)`,
every editor is notified in order, and then the configured `onChange`
callback runs. With `forceEditorUpdate`, the owning editor's
`updateDisplayedValue` is invoked last. The JS function returns `value`;
the model returns the updated state. -/
def setPropertyValue (s : Surface) (property : String) (value : JSValue)
    (supressChangeEvents : Bool) (forceEditorUpdate : Bool) : Surface :=
  let values :=
    if !(value == .undef) then objSet s.values property value
    else if !(objGet s.values property == .undef) then objDelete s.values property
    else s.values
  let changed :=
    objGet s.originalValues property == .undef ||
      !(comparePropertyValues (objGet s.originalValues property) value)
  let marked :=
    if !supressChangeEvents then markPropertyChanged s.marked property changed
    else s.marked
  let notifications :=
    if !supressChangeEvents then
      (List.range s.editors.length).map (fun i => SEvent.editorNotified i property value) ++
        (if s.hasOnChange then [SEvent.changeCallback property value] else [])
    else []
  let display :=
    if forceEditorUpdate && (findPropertyEditor s property).isSome then
      [SEvent.displayUpdated property value]
    else []
  { s with
    values := values
    marked := marked
    events := s.events ++ notifications ++ display }

/-- Resolution of one schema item inside the `getValues` loop (src lines
765-799): `none` means the loop emits nothing for the item (a non-property
item, or a value equal to the removed-property sentinel, which `continue`s).
When a visible external parameter editor is attached, its expression wins,
wrapped in the external-parameter escape form; otherwise the stored value; when that is
`undefined`, the owning editor's `getUndefinedValue()` if an editor is found,
else the schema default. JS coerces an absent `property.property` to the
string key `"undefined"` on map access, while `findPropertyEditor(undefined)`
and `findExternalParameterEditor(undefined)` match no editor. -/
def resolvePropertyValue (s : Surface) (pd : PropertyDef) : Option JSValue :=
  if pd.itemType = "property" then
    let key := pd.property.getD ("undefined")
    let extEd := pd.property.bind (findExternalParameterEditor s)
    match extEd with
    | some e =>
      if e.visible then
        some (.str ("\x7b\x7b " ++ e.value ++ " \x7d\x7d"))
      else
        let value := objGet s.values key
        let value :=
          if value == .undef then
            match pd.property.bind (findPropertyEditor s) with
            | some ed => ed.undefinedValue
            | none => pd.default.getD .undef
          else value
        if value == .removed then none else some value
    | none =>
      let value := objGet s.values key
      let value :=
        if value == .undef then
          match pd.property.bind (findPropertyEditor s) with
          | some ed => ed.undefinedValue
          | none => pd.default.getD .undef
        else value
      if value == .removed then none else some value
  else none

/-- The key an item writes into the `getValues` result object. -/
def pdKey (pd : PropertyDef) : String :=
  pd.property.getD ("undefined")

/-- The accumulator loop of `Surface.prototype.getValues` (src lines 762-802). -/
def getValuesAux (s : Surface) : List PropertyDef → ValueMap → ValueMap
  | [], result => result
  | pd :: rest, result =>
    match resolvePropertyValue s pd with
    | none => getValuesAux s rest result
    | some v => getValuesAux s rest (objSet result (pdKey pd) v)

/-- Embeds `Surface.prototype.getValues` (src lines 762-802). -/
def getValues (s : Surface) : ValueMap :=
  getValuesAux s s.parsedProperties []

/-- Embeds `Surface.prototype.hasChanges` (src lines 830-832). -/
def hasChanges (s : Surface) : Bool :=
  !(comparePropertyValues (.obj s.originalValues) (.obj s.values))

/-!
Validation (src lines 804-828).
-/

/-- Result of one `validate()` call: the returned boolean, the editor marked
invalid by `markInvalid()` (at most one per call, identified by its position
in the editors list), and the positions of the editors examined, in order. -/
structure ValidateOutcome : Type where
  result : Bool
  markedInvalid : Option Nat
  checked : List Nat
deriving DecidableEq

/-- The editor loop of `Surface.prototype.validate` (src lines 807-827),
with `i` the absolute position of the first editor of the list. For each
editor: when an external parameter editor for its property is attached and
visible, that external editor's `validate()` is consulted instead of the base
editor's; a failure marks the base editor invalid and returns `false` at
once; success moves to the next editor. -/
def validateAux (s : Surface) : List Editor → Nat → ValidateOutcome
  | [], _ => { result := true, markedInvalid := none, checked := [] }
  | ed :: rest, i =>
    match findExternalParameterEditor s ed.propertyName with
    | some ext =>
      if ext.visible then
        if !ext.validateResult then
          { result := false, markedInvalid := some i, checked := [i] }
        else
          let o := validateAux s rest (i + 1)
          { o with checked := i :: o.checked }
      else
        if !ed.validateResult then
          { result := false, markedInvalid := some i, checked := [i] }
        else
          let o := validateAux s rest (i + 1)
          { o with checked := i :: o.checked }
    | none =>
      if !ed.validateResult then
        { result := false, markedInvalid := some i, checked := [i] }
      else
        let o := validateAux s rest (i + 1)
        { o with checked := i :: o.checked }

/-- Embeds `Surface.prototype.validate` (src lines 804-828). The call to
`GroupManager.unmarkInvalidGroups` that clears prior invalid-group markers
(a contract of the external GroupManager) precedes the loop and has no
bearing on the outcome fields. -/
def validateSurface (s : Surface) : ValidateOutcome :=
  validateAux s s.editors 0

/-- The verdict the loop consults for one editor: the visible external
parameter editor is authoritative when attached, otherwise the base editor. -/
def effectiveEditorValid (s : Surface) (ed : Editor) : Bool :=
  match findExternalParameterEditor s ed.propertyName with
  | some ext => if ext.visible then ext.validateResult else ed.validateResult
  | none => ed.validateResult

/-!
Editor construction (src lines 468-505 and 618-627).
-/

/-- Embeds `Surface.prototype.validateEditorType` (src lines 618-627): an
absent type falls back to `"string"`; a type with no entry in the registered
`$.oc.inspector.propertyEditors` namespace throws. The registry is the list
of registered editor-kind names (its concrete population comes from editor
files outside `src/`). -/
def validateEditorType (registry : List String) (type : Option String) :
    Except String Unit :=
  let t := type.getD ("string")
  if t ∈ registry then Except.ok ()
  else Except.error ("The Inspector editor class " ++ t ++ " is not defined in the $.oc.inspector.propertyEditors namespace.")

/-- The editor-construction aspect of `Surface.prototype.build` together with
`buildEditor` (src lines 164-218 and 468-505): one editor is instantiated per
`property` item, in schema order, after `validateEditorType` has checked its
kind; a failed check throws out of the whole build. The result lists the
editor kinds actually instantiated. -/
def buildEditors (registry : List String) : List PropertyDef → Except String (List String)
  | [] => Except.ok []
  | pd :: rest =>
    if pd.itemType = "property" then
      match validateEditorType registry pd.type with
      | Except.error e => Except.error e
      | Except.ok _ =>
        match buildEditors registry rest with
        | Except.error e => Except.error e
        | Except.ok l => Except.ok ((pd.type.getD ("string")) :: l)
    else buildEditors registry rest

/-!
Groups, rows, and expand/collapse (src lines 404-458).

The GroupManager and the Group class live in a repository file that is not
under `src/`; they are modelled from the spec. Groups form a forest reached
by parent references, embedded as an inductive chain so that every group
carries its full ancestor path.
-/

/-- A group together with its chain of parent groups (spec section 3:
a Group has an identifier, a parent reference or none, and a level equal to
its parent's level plus one, zero at a root). -/
inductive InspGroup : Type where
  | root : String → InspGroup
  | child : String → InspGroup → InspGroup
deriving DecidableEq

/-- The group's identifier. -/
def InspGroup.index : InspGroup → String
  | .root i => i
  | .child i _ => i

/-- The group's nesting level: zero at a root, parent's level plus one below. -/
def InspGroup.level : InspGroup → Nat
  | .root _ => 0
  | .child _ p => p.level + 1

/-- Identifiers of the strict ancestors, innermost first. -/
def InspGroup.ancestorIndices : InspGroup → List String
  | .root _ => []
  | .child _ p => p.index :: p.ancestorIndices

/-- Modelled from the spec: `Group.getGroupAndAllParents` of the external
groups file, named at src line 426 — the group followed by its parent chain
up to the root, per the Group data model of spec section 3. -/
def InspGroup.getGroupAndAllParents : InspGroup → List InspGroup
  | .root i => [.root i]
  | .child i p => .child i p :: p.getGroupAndAllParents

/-- A rendered inspector row, by the group it belongs to (the DOM carries
this as the `data-group-index` / `data-parent-group-index` attributes). -/
structure InspectorRow : Type where
  id : Nat
  group : InspGroup
deriving DecidableEq

/-- Modelled from the spec: `GroupManager.findGroupRows(rootElement,
groupIndex, includeDescendants)` (spec section 4.2) — all rows belonging to
the group and, if requested, all nested descendant groups' rows. -/
def findGroupRowsModel (rows : List InspectorRow) (groupIndex : String)
    (includeDescendants : Bool) : List Nat :=
  (rows.filter (fun r =>
    r.group.index == groupIndex ||
      (includeDescendants && r.group.ancestorIndices.contains groupIndex))).map (fun r => r.id)

/-- Observable effects of a `toggleGroup` call, in execution order. -/
inductive TgEvent : Type where
  | rowToggled : Nat → Bool → TgEvent
  | setGroupStatus : String → Bool → TgEvent
deriving DecidableEq

/-- Embeds `Surface.prototype.expandOrCollapseRows` (src lines 438-458):
rows are processed by popping from the end of the array, each row's
`collapsed`/`expanded` classes toggled to the target state. With animation,
each step runs in a `setTimeout` callback; without, the whole list is
processed synchronously. Either way the rows produce this event list, in
processing order. -/
def expandOrCollapseRows (rows : List Nat) (collapse : Bool) : List TgEvent :=
  rows.reverse.map (fun r => TgEvent.rowToggled r collapse)

/-- Outcome of one `toggleGroup` call: the transition direction, the
`includeDescendants` flag passed to `findGroupRows`, the rows it returned,
the link's `expanded` class afterwards, and the observable events in the
order they run (for an animated toggle every row step is deferred behind a
timer, so it runs after the synchronous call stack — and in particular after
the `setGroupStatus` commit — has finished). -/
structure ToggleGroupOutcome : Type where
  collapse : Bool
  includeDescendantsFlag : Bool
  selectedRows : List Nat
  linkExpandedAfter : Bool
  events : List TgEvent
deriving DecidableEq

/-- Embeds `Surface.prototype.toggleGroup` (src lines 404-423).
`findRows` is the `GroupManager.findGroupRows` collaborator, taking the group
index and the `includeDescendants` flag; `linkExpanded` is whether the row's
expand link carries the `expanded` class. The source also computes the
per-row animation delay `Math.round(50 / propertyRows.length)`; it only feeds
the `setTimeout` interval, which has no bearing on the event order, and is
not a field of the outcome. -/
def toggleGroup (findRows : String → Bool → List Nat) (linkExpanded : Bool)
    (groupIndex : String) (forceExpand : Bool) : ToggleGroupOutcome :=
  let collapse := linkExpanded && !forceExpand
  let propertyRows := findRows groupIndex (!collapse)
  let rowEvents := expandOrCollapseRows propertyRows collapse
  let commit := TgEvent.setGroupStatus groupIndex (!collapse)
  { collapse := collapse
    includeDescendantsFlag := !collapse
    selectedRows := propertyRows
    linkExpandedAfter := !collapse
    events := if forceExpand then rowEvents ++ [commit] else commit :: rowEvents }

/-- One toggle performed by `expandGroupParents`: the row it was invoked on,
the group that row represents, and the toggle's outcome. -/
structure ToggleCall : Type where
  row : Nat
  group : InspGroup
  outcome : ToggleGroupOutcome
deriving DecidableEq

/-- Embeds `Surface.prototype.expandGroupParents` (src lines 425-436):
iterate `group.getGroupAndAllParents()` from the last element down to the
first, and for every group whose row is found (`findRow`, modelling the
external `Group.findGroupRow`: the row carrying that group's index, if any),
call `toggleGroup(row, true)`. `linkState` gives each row's current link
state and `findRows` is the `findGroupRows` collaborator. -/
def expandGroupParents (findRow : InspGroup → Option Nat) (linkState : Nat → Bool)
    (findRows : String → Bool → List Nat) (group : InspGroup) : List ToggleCall :=
  group.getGroupAndAllParents.reverse.filterMap (fun gr =>
    (findRow gr).map (fun row =>
      { row := row, group := gr,
        outcome := toggleGroup findRows (linkState row) gr.index true }))

/-!
Nested surface merging (src lines 653-664).
-/

/-- DOM `parentNode.insertBefore(row, anchor.nextSibling)`: place `row`
immediately after the first occurrence of `anchor`. -/
def insertAfter (l : List Nat) (anchor row : Nat) : List Nat :=
  match l with
  | [] => []
  | x :: rest => if x = anchor then x :: row :: rest else x :: insertAfter rest anchor row

/-- Embeds the row splicing of `Surface.prototype.mergeChildSurface`
(src lines 653-664): the child's rows are walked from the last to the first,
each inserted immediately after the anchor row of the parent sequence. -/
def mergeChildSurfaceRows (parentRows : List Nat) (anchor : Nat)
    (childRows : List Nat) : List Nat :=
  childRows.reverse.foldl (fun acc r => insertAfter acc anchor r) parentRows

/-!
Helper lemmas about the value-map operations.
-/

theorem objGet_eq_getD_objLookup (m : ValueMap) (k : String) :
    objGet m k = (objLookup m k).getD .undef := by
  induction m with
  | nil => rfl
  | cons e rest ih =>
    obtain ⟨k', v⟩ := e
    by_cases h : k' = k <;> simp [objGet, objLookup, h, ih]

theorem objLookup_objSet_self (m : ValueMap) (k : String) (v : JSValue) :
    objLookup (objSet m k v) k = some v := by
  induction m with
  | nil => simp [objSet, objLookup]
  | cons e rest ih =>
    obtain ⟨k', v'⟩ := e
    by_cases h : k' = k <;> simp [objSet, objLookup, h, ih]

theorem objLookup_objSet_ne (m : ValueMap) (k q : String) (v : JSValue) (h : q ≠ k) :
    objLookup (objSet m k v) q = objLookup m q := by
  induction m with
  | nil => simp [objSet, objLookup, Ne.symm h]
  | cons e rest ih =>
    obtain ⟨k', v'⟩ := e
    by_cases hk : k' = k
    · subst hk
      simp [objSet, objLookup, Ne.symm h]
    · by_cases hq : k' = q <;> simp [objSet, objLookup, hk, hq, h, ih]

theorem objGet_objSet_self (m : ValueMap) (k : String) (v : JSValue) :
    objGet (objSet m k v) k = v := by
  rw [objGet_eq_getD_objLookup, objLookup_objSet_self]
  rfl

theorem objLookup_objDelete_self (m : ValueMap) (k : String) :
    objLookup (objDelete m k) k = none := by
  induction m with
  | nil => rfl
  | cons e rest ih =>
    obtain ⟨k', v'⟩ := e
    by_cases h : k' = k <;> simp [objDelete, objLookup, h] at ih ⊢ <;> simp [ih]

theorem objLookup_objDelete_ne (m : ValueMap) (k q : String) (h : q ≠ k) :
    objLookup (objDelete m k) q = objLookup m q := by
  induction m with
  | nil => rfl
  | cons e rest ih =>
    obtain ⟨k', v'⟩ := e
    by_cases hk : k' = k
    · subst hk
      simp [objDelete, objLookup, Ne.symm h] at ih ⊢
      exact ih
    · by_cases hq : k' = q
      · simp [objDelete, objLookup, hq, h]
      · simpa [objDelete, objLookup, hk, hq] using ih

theorem objSet_objSet (m : ValueMap) (k : String) (v w : JSValue) :
    objSet (objSet m k w) k v = objSet m k v := by
  induction m with
  | nil => simp [objSet]
  | cons e rest ih =>
    obtain ⟨k', v'⟩ := e
    by_cases h : k' = k <;> simp [objSet, h, ih]

/-!
Helper lemmas about serialization normal forms.
-/

theorem normalizeEntries_cons (k : String) (v : JSValue) (rest : ValueMap) :
    normalizeEntries ((k, v) :: rest) =
      if v = .undef then normalizeEntries rest
      else (k, normalizeVal v) :: normalizeEntries rest := by
  cases v <;> simp [normalizeEntries]

theorem normalizeVal_eq_undef_iff (v : JSValue) : normalizeVal v = .undef ↔ v = .undef := by
  cases v <;> simp [normalizeVal]

theorem objLookup_normalizeEntries_of_forall_ne (m : ValueMap) (p : String)
    (h : ∀ e ∈ m, e.1 ≠ p) : objLookup (normalizeEntries m) p = none := by
  induction m with
  | nil => rfl
  | cons e rest ih =>
    obtain ⟨k, v⟩ := e
    have hk : k ≠ p := h (k, v) (by simp)
    have hrest := ih (fun e he => h e (by simp [he]))
    rw [normalizeEntries_cons]
    by_cases hv : v = .undef <;> simp [hv, objLookup, hk, hrest]

theorem objLookup_normalizeEntries (m : ValueMap) (p : String) (h : NodupKeys m) :
    objLookup (normalizeEntries m) p =
      match objLookup m p with
      | none => none
      | some v => if v = .undef then none else some (normalizeVal v) := by
  induction m with
  | nil => rfl
  | cons e rest ih =>
    obtain ⟨k, v⟩ := e
    have hrest : NodupKeys rest := by
      have := h
      simp [NodupKeys] at this ⊢
      exact this.2
    have hknot : ∀ e ∈ rest, e.1 ≠ k := by
      intro e he hh
      have h1 := h
      simp [NodupKeys] at h1
      obtain ⟨e1, e2⟩ := e
      simp at hh
      subst hh
      exact h1.1 e2 he
    by_cases hk : k = p
    · subst hk
      have hnone : objLookup (normalizeEntries rest) k = none :=
        objLookup_normalizeEntries_of_forall_ne rest k hknot
      rw [normalizeEntries_cons]
      by_cases hv : v = .undef <;> simp [hv, objLookup, hnone]
    · rw [normalizeEntries_cons]
      by_cases hv : v = .undef <;> simp [hv, objLookup, hk, ih hrest]

theorem objLookup_normalizeEntries_objSet (m : ValueMap) (p : String) (v : JSValue)
    (hv : v ≠ .undef) :
    objLookup (normalizeEntries (objSet m p v)) p = some (normalizeVal v) := by
  induction m with
  | nil => simp [objSet, normalizeEntries_cons, hv, objLookup]
  | cons e rest ih =>
    obtain ⟨k, w⟩ := e
    by_cases hk : k = p
    · subst hk
      simp [objSet, normalizeEntries_cons, hv, objLookup]
    · simp only [objSet, hk, if_false, normalizeEntries_cons]
      by_cases hw : w = .undef <;> simp [hw, objLookup, hk, ih]

theorem normalizeEntries_objSet_congr (m : ValueMap) (p : String) (v v0 : JSValue)
    (h0 : objLookup m p = some v0) (hnv : normalizeVal v = normalizeVal v0)
    (hv : v ≠ .undef) :
    normalizeEntries (objSet m p v) = normalizeEntries m := by
  induction m with
  | nil => simp [objLookup] at h0
  | cons e rest ih =>
    obtain ⟨k, w⟩ := e
    by_cases hk : k = p
    · subst hk
      have hw : w = v0 := by simpa [objLookup] using h0
      subst hw
      have hw0 : w ≠ .undef := by
        intro hh
        exact hv ((normalizeVal_eq_undef_iff v).mp (by rw [hnv, hh]; rfl))
      simp [objSet, normalizeEntries_cons, hv, hw0, hnv]
    · have h0' : objLookup rest p = some v0 := by simpa [objLookup, hk] using h0
      simp only [objSet, hk, if_false]
      rw [normalizeEntries_cons, normalizeEntries_cons]
      by_cases hw : w = .undef <;> simp [hw, ih h0']

/-!
Helper lemmas about `setPropertyValue` and `getValues`.
-/

theorem setPropertyValue_parsedProperties (s : Surface) (p : String) (v : JSValue)
    (sup force : Bool) :
    (setPropertyValue s p v sup force).parsedProperties = s.parsedProperties := rfl

theorem setPropertyValue_editors (s : Surface) (p : String) (v : JSValue)
    (sup force : Bool) :
    (setPropertyValue s p v sup force).editors = s.editors := rfl

theorem setPropertyValue_exts (s : Surface) (p : String) (v : JSValue)
    (sup force : Bool) :
    (setPropertyValue s p v sup force).externalParameterEditors =
      s.externalParameterEditors := rfl

theorem setPropertyValue_originalValues (s : Surface) (p : String) (v : JSValue)
    (sup force : Bool) :
    (setPropertyValue s p v sup force).originalValues = s.originalValues := rfl

theorem setPropertyValue_values (s : Surface) (p : String) (v : JSValue)
    (sup force : Bool) :
    (setPropertyValue s p v sup force).values =
      if !(v == .undef) then objSet s.values p v
      else if !(objGet s.values p == .undef) then objDelete s.values p
      else s.values := rfl

theorem findExternalParameterEditor_setPropertyValue (s : Surface) (p q : String)
    (v : JSValue) (sup force : Bool) :
    findExternalParameterEditor (setPropertyValue s p v sup force) q =
      findExternalParameterEditor s q := rfl

theorem findPropertyEditor_setPropertyValue (s : Surface) (p q : String)
    (v : JSValue) (sup force : Bool) :
    findPropertyEditor (setPropertyValue s p v sup force) q =
      findPropertyEditor s q := rfl

theorem resolvePropertyValue_of_not_property (s : Surface) (pd : PropertyDef)
    (h : ¬ pd.itemType = "property") : resolvePropertyValue s pd = none := by
  simp [resolvePropertyValue, h]

theorem resolvePropertyValue_stored (s : Surface) (pd : PropertyDef) (p : String)
    (v : JSValue) (hty : pd.itemType = "property") (hkey : pdKey pd = p)
    (hstored : objGet s.values p = v) (hv : v ≠ .undef)
    (hext : ∀ e, findExternalParameterEditor s p = some e → e.visible = false) :
    resolvePropertyValue s pd = if v = .removed then none else some v := by
  cases hprop : pd.property with
  | none =>
    have hp : p = "undefined" := by simpa [pdKey, hprop] using hkey.symm
    subst hp
    simp only [resolvePropertyValue, hty, if_true, hprop, Option.none_bind, Option.getD_none]
    rw [hstored]
    simp [hv]
  | some q =>
    have hq : q = p := by simpa [pdKey, hprop] using hkey
    subst hq
    simp only [resolvePropertyValue, hty, if_true, hprop, Option.some_bind, Option.getD_some]
    cases hfind : findExternalParameterEditor s q with
    | none =>
      rw [hstored]
      simp [hv]
    | some e =>
      have hvis : e.visible = false := hext e hfind
      rw [hstored]
      simp [hv, hvis]

theorem objLookup_getValuesAux (s : Surface) (props : List PropertyDef) (p : String)
    (w : Option JSValue)
    (hw : ∀ pd ∈ props, pd.itemType = "property" → pdKey pd = p →
      resolvePropertyValue s pd = w) :
    ∀ acc : ValueMap,
      objLookup (getValuesAux s props acc) p =
        if props.any (fun pd => pd.itemType == "property" && pdKey pd == p) && w.isSome
        then w else objLookup acc p := by
  induction props with
  | nil => intro acc; simp [getValuesAux]
  | cons pd rest ih =>
    intro acc
    have hwrest : ∀ pd' ∈ rest, pd'.itemType = "property" → pdKey pd' = p →
        resolvePropertyValue s pd' = w :=
      fun pd' h1 h2 h3 => hw pd' (by simp [h1]) h2 h3
    by_cases hty : pd.itemType = "property"
    · by_cases hkey : pdKey pd = p
      · have hres := hw pd (by simp) hty hkey
        cases hcw : w with
        | none =>
          rw [hcw] at hres
          rw [getValuesAux, hres]
          simp only [hcw, Option.isSome_none, Bool.and_false, if_false]
          rw [ih hwrest acc, hcw]
          simp
        | some v =>
          rw [hcw] at hres
          rw [getValuesAux, hres]
          simp only [List.any_cons, hty, hkey, beq_self_eq_true, Bool.and_self,
            Bool.true_or, hcw, Option.isSome_some, Bool.and_true, if_true]
          rw [ih hwrest (objSet acc p v), hcw]
          by_cases hany : rest.any (fun pd => pd.itemType == "property" && pdKey pd == p)
          · simp [hany]
          · simp only [Bool.not_eq_true] at hany
            simp [hany, objLookup_objSet_self]
      · have hne : ¬ (pd.itemType == "property" && pdKey pd == p) = true := by
          simp [hkey]
        cases hres : resolvePropertyValue s pd with
        | none =>
          rw [getValuesAux, hres, ih hwrest acc]
          simp [hne]
        | some v =>
          rw [getValuesAux, hres, ih hwrest (objSet acc (pdKey pd) v)]
          have hlk : objLookup (objSet acc (pdKey pd) v) p = objLookup acc p :=
            objLookup_objSet_ne acc (pdKey pd) p v (fun hh => hkey hh.symm)
          simp [hne, hlk]
    · have hres := resolvePropertyValue_of_not_property s pd hty
      have hne : ¬ (pd.itemType == "property" && pdKey pd == p) = true := by
        simp [hty]
      rw [getValuesAux, hres, ih hwrest acc]
      simp [hne]

/-!
Claim C1.
-/

/-- C1: for every property name `p` declared as a `property` item of the
schema and every value `v` (an actual value: `undefined` is the deletion
marker, not a value), on a surface where no external-parameter editor is
visible for `p`, `setPropertyValue(p, v)` followed by `getValues()` yields a
mapping whose entry for `p` is `v`, except when `v` is the removed-property
sentinel, in which case `p` is absent from the result. -/
theorem claim1_setPropertyValue_getValues_roundtrip (s : Surface) (p : String)
    (v : JSValue) (sup force : Bool)
    (hdecl : ∃ pd ∈ s.parsedProperties, pd.itemType = "property" ∧ pd.property = some p)
    (hext : ∀ e, findExternalParameterEditor s p = some e → e.visible = false)
    (hv : v ≠ .undef) :
    objLookup (getValues (setPropertyValue s p v sup force)) p =
      if v = .removed then none else some v := by
  obtain ⟨pd0, hpd0, hty0, hname0⟩ := hdecl
  have hvals : (setPropertyValue s p v sup force).values = objSet s.values p v := by
    rw [setPropertyValue_values]
    simp [hv]
  have hw : ∀ pd ∈ (setPropertyValue s p v sup force).parsedProperties,
      pd.itemType = "property" → pdKey pd = p →
      resolvePropertyValue (setPropertyValue s p v sup force) pd =
        if v = .removed then none else some v := by
    intro pd _ hty hkey
    refine resolvePropertyValue_stored _ pd p v hty hkey ?_ hv ?_
    · rw [hvals]
      exact objGet_objSet_self _ _ _
    · intro e he
      rw [findExternalParameterEditor_setPropertyValue] at he
      exact hext e he
  have hmain := objLookup_getValuesAux (setPropertyValue s p v sup force)
    (setPropertyValue s p v sup force).parsedProperties p _ hw []
  rw [getValues] at *
  rw [hmain]
  have hany : ((setPropertyValue s p v sup force).parsedProperties.any
      (fun pd => pd.itemType == "property" && pdKey pd == p)) = true := by
    rw [setPropertyValue_parsedProperties]
    refine List.any_eq_true.mpr ⟨pd0, hpd0, ?_⟩
    simp [hty0, pdKey, hname0]
  rw [hany]
  by_cases hrem : v = .removed
  · simp [hrem, objLookup]
  · simp [hrem]

def c1ColorDef : PropertyDef :=
  { property := some ("color"), itemType := "property", groupIndex := none,
    title := "Color", type := some ("string"), default := some (.str ("#fff")),
    showExternalParam := true }

def c1Surface : Surface := mkSurface [c1ColorDef] (some []) [] [] false

/-- Witness for C1 at a concrete surface. -/
theorem claim1_witness :
    objLookup (getValues (setPropertyValue c1Surface ("color") (.str ("#00f")) false false))
      ("color") = some (.str ("#00f")) := by
  have h := claim1_setPropertyValue_getValues_roundtrip c1Surface ("color") (.str ("#00f"))
    false false (by decide)
    (fun e he => by simp [findExternalParameterEditor, c1Surface, mkSurface] at he)
    (by decide)
  simpa using h

/-!
Claim C2.
-/

def c2GroupDef : PropertyDef :=
  { property := none, itemType := "group", groupIndex := some ("1"),
    title := "Appearance", type := none, default := none, showExternalParam := false }

def c2ColorDef : PropertyDef :=
  { property := some ("color"), itemType := "property", groupIndex := some ("1"),
    title := "Color", type := some ("string"), default := some (.str ("#fff")),
    showExternalParam := true }

/-- The spec's example surface: schema of one group marker and one string
property with default `#fff`, values empty, editors not attached (the
concrete string editor class is a collaborator outside `src/`, so the
resolution falls to the schema default, as the spec's example requires). -/
def c2Surface : Surface := mkSurface [c2GroupDef, c2ColorDef] (some []) [] [] false

/-- C2: `getValues()` resolves each schema property with the priority
(1) visible external-parameter editor, wrapped in the external-parameter escape form,
(2) stored value, (3) owning editor's undefined-value substitute when an
editor is attached, (4) schema default when none is, with a removed-property
sentinel omitted from the result; and on the spec's example schema with empty
values it yields exactly `\x7bcolor: "#fff"\x7d`. -/
theorem claim2_getValues_priority :
    (∀ (s : Surface) (pd : PropertyDef) (p : String),
      pd ∈ s.parsedProperties → pd.itemType = "property" → pd.property = some p →
      (∀ pd' ∈ s.parsedProperties, pd'.itemType = "property" → pdKey pd' = p → pd' = pd) →
      objLookup (getValues s) p =
        (let stored := objGet s.values p
         let resolved :=
           if stored ≠ .undef then stored
           else
             match findPropertyEditor s p with
             | some ed => ed.undefinedValue
             | none => pd.default.getD .undef
         match findExternalParameterEditor s p with
         | some e =>
           if e.visible then some (JSValue.str ("\x7b\x7b " ++ e.value ++ " \x7d\x7d"))
           else if resolved = .removed then none else some resolved
         | none => if resolved = .removed then none else some resolved)) ∧
    getValues c2Surface = [("color", JSValue.str ("#fff"))] := by
  constructor
  · intro s pd p hpd hty hname huniq
    have hw : ∀ pd' ∈ s.parsedProperties, pd'.itemType = "property" → pdKey pd' = p →
        resolvePropertyValue s pd' = resolvePropertyValue s pd :=
      fun pd' h1 h2 h3 => by rw [huniq pd' h1 h2 h3]
    have hmain := objLookup_getValuesAux s s.parsedProperties p _ hw []
    have hany : (s.parsedProperties.any
        (fun pd => pd.itemType == "property" && pdKey pd == p)) = true :=
      List.any_eq_true.mpr ⟨pd, hpd, by simp [hty, pdKey, hname]⟩
    have hlk : objLookup (getValues s) p = resolvePropertyValue s pd := by
      rw [getValues, hmain, hany]
      cases hres : resolvePropertyValue s pd <;> simp [objLookup]
    rw [hlk]
    simp only [resolvePropertyValue, hty, if_true, hname, Option.some_bind, Option.getD_some]
    cases hfind : findExternalParameterEditor s p with
    | none =>
      by_cases hst : objGet s.values p = .undef
      · cases hed : findPropertyEditor s p <;>
          simp [hst, hed, beq_iff_eq]
      · simp [hst, beq_iff_eq]
    | some e =>
      by_cases hvis : e.visible = true
      · simp [hvis]
      · by_cases hst : objGet s.values p = .undef
        · cases hed : findPropertyEditor s p <;>
            simp [hvis, hst, hed, beq_iff_eq]
        · simp [hvis, hst, beq_iff_eq]
  · rfl

/-- Witness for C2 at the example surface. -/
theorem claim2_witness :
    objLookup (getValues c2Surface) ("color") = some (JSValue.str ("#fff")) := by
  have h := claim2_getValues_priority.1 c2Surface
    { c2ColorDef with groupIndex := some ("1") } ("color")
    (by decide) (by decide) (by decide) (by decide)
  simpa [c2Surface, mkSurface, findPropertyEditor, findExternalParameterEditor,
    c2ColorDef, objGet] using h

/-!
Claim C3.
-/

theorem hasChanges_eq_true_iff (s : Surface) :
    hasChanges s = true ↔
      ¬ normalizeEntries s.originalValues = normalizeEntries s.values := by
  have h3 : hasChanges s =
      !(beqEntries (normalizeEntries s.originalValues) (normalizeEntries s.values)) := rfl
  rw [h3, Bool.not_eq_true', Bool.eq_false_iff, Ne, beqEntries_iff]

theorem hasChanges_eq_false_iff (s : Surface) :
    hasChanges s = false ↔
      normalizeEntries s.originalValues = normalizeEntries s.values := by
  rw [← Bool.not_eq_true, hasChanges_eq_true_iff, not_not]

def c3S0 : Surface := mkSurface [] (some [("a", .num 1), ("b", .num 2)]) [] [] false

def c3S1 : Surface := setPropertyValue c3S0 ("a") .undef false false

def c3S2 : Surface := setPropertyValue c3S1 ("a") (.num 1) false false

/-- C3 counterexample: starting from `values = originalValues =
\x7ba: 1, b: 2\x7d`, deleting `a` (`setPropertyValue("a", undefined)`) and
then reverting it to its original value `1` leaves every property equal to
its snapshot value, yet `hasChanges()` is `true`, because the re-added key
sits at the end of the map and `JSON.stringify` is key-order-sensitive. -/
theorem claim3_counterexample :
    objGet c3S2.values ("a") = .num 1 ∧
    objGet c3S2.values ("b") = .num 2 ∧
    c3S2.originalValues = [("a", .num 1), ("b", .num 2)] ∧
    objGet c3S2.originalValues ("a") = .num 1 ∧
    objGet c3S2.originalValues ("b") = .num 2 ∧
    hasChanges c3S2 = true :=
  ⟨rfl, rfl, rfl, rfl, rfl, rfl⟩

/-- C3 (amended): `hasChanges()` is true iff the JSON serialization of the
current values map differs from that of the snapshot (a key-order-sensitive
comparison). It is false immediately after construction; it becomes true
after any `setPropertyValue` whose new value differs by serialize-compare
from the snapshot's value for that property; and overwriting a property back
to a value serialize-equal to its snapshot value restores false when that
property was the only divergence and its key position is unchanged (in
particular when the key was never deleted). -/
theorem claim3_hasChanges_amended :
    (∀ (props : List PropertyDef) (vals : Option ValueMap) (eds : List Editor)
        (exts : List ExtEditor) (cb : Bool),
      hasChanges (mkSurface props vals eds exts cb) = false) ∧
    (∀ (s : Surface) (p : String) (v : JSValue) (sup force : Bool),
      NodupKeys s.values →
      objLookup (normalizeEntries s.originalValues) p ≠
        (if v = .undef then none else some (normalizeVal v)) →
      hasChanges (setPropertyValue s p v sup force) = true) ∧
    (∀ (s : Surface) (orig : ValueMap) (p : String) (v v0 w : JSValue) (sup force : Bool),
      s.originalValues = orig → s.values = objSet orig p w →
      objLookup orig p = some v0 → normalizeVal v = normalizeVal v0 → v ≠ .undef →
      hasChanges (setPropertyValue s p v sup force) = false) := by
  refine ⟨?_, ?_, ?_⟩
  · intro props vals eds exts cb
    exact (hasChanges_eq_false_iff _).mpr rfl
  · intro s p v sup force hnodup hdiff
    rw [hasChanges_eq_true_iff, setPropertyValue_originalValues]
    intro heq
    apply hdiff
    rw [heq]
    by_cases hv : v = .undef
    · subst hv
      rw [if_pos rfl]
      rw [setPropertyValue_values]
      simp only [beq_self_eq_true, Bool.not_true, Bool.false_eq_true, if_false]
      by_cases hget : objGet s.values p = .undef
      · rw [if_neg (by simp [hget])]
        rw [objLookup_normalizeEntries s.values p hnodup]
        rw [objGet_eq_getD_objLookup] at hget
        cases hlk : objLookup s.values p with
        | none => rfl
        | some x =>
          rw [hlk] at hget
          simp only [Option.getD_some] at hget
          simp [hget]
      · rw [if_pos (by simp [hget])]
        apply objLookup_normalizeEntries_of_forall_ne
        intro e he
        have hmem := List.of_mem_filter he
        simpa using hmem
    · rw [if_neg hv]
      rw [setPropertyValue_values, if_pos (by simp [hv])]
      exact objLookup_normalizeEntries_objSet s.values p v hv
  · intro s orig p v v0 w sup force horig hvals h0 hnv hv
    rw [hasChanges_eq_false_iff, setPropertyValue_originalValues,
      setPropertyValue_values, if_pos (by simp [hv]), horig, hvals, objSet_objSet]
    exact (normalizeEntries_objSet_congr orig p v v0 h0 hnv hv).symm

/-- Witness for the amended C3 at concrete inputs. -/
theorem claim3_witness :
    hasChanges (setPropertyValue (mkSurface [] (some []) [] [] false)
      "x" (.num 5) false false) = true ∧
    hasChanges (setPropertyValue (mkSurface [] (some [("x", .num 5)]) [] [] false)
      "x" (.num 5) false false) = false := by
  constructor
  · exact claim3_hasChanges_amended.2.1 _ ("x") (.num 5) false false (by decide)
      (by intro h; exact Option.noConfusion (by simpa using h))
  · exact claim3_hasChanges_amended.2.2 _ [("x", .num 5)] ("x") (.num 5) (.num 5) (.num 5)
      false false rfl (by rfl) (by rfl) rfl (by decide)

/-!
Claim C4.
-/

/-- Position of the first editor whose authoritative verdict is a failure. -/
def firstFailingEditor (s : Surface) : List Editor → Option Nat
  | [] => none
  | ed :: rest =>
    if effectiveEditorValid s ed then (firstFailingEditor s rest).map (· + 1)
    else some 0

theorem validateAux_cons (s : Surface) (ed : Editor) (rest : List Editor) (i : Nat) :
    validateAux s (ed :: rest) i =
      if effectiveEditorValid s ed then
        { result := (validateAux s rest (i + 1)).result,
          markedInvalid := (validateAux s rest (i + 1)).markedInvalid,
          checked := i :: (validateAux s rest (i + 1)).checked }
      else { result := false, markedInvalid := some i, checked := [i] } := by
  rw [validateAux, effectiveEditorValid]
  cases hfind : findExternalParameterEditor s ed.propertyName with
  | none => cases hv : ed.validateResult <;> simp [hv]
  | some ext =>
    by_cases hvis : ext.visible = true
    · cases hv : ext.validateResult <;> simp [hvis, hv]
    · simp only [Bool.not_eq_true] at hvis
      cases hv : ed.validateResult <;> simp [hvis, hv]

theorem firstFailingEditor_eq_none_iff (s : Surface) (eds : List Editor) :
    firstFailingEditor s eds = none ↔ ∀ ed ∈ eds, effectiveEditorValid s ed = true := by
  induction eds with
  | nil => simp [firstFailingEditor]
  | cons ed rest ih =>
    by_cases h : effectiveEditorValid s ed <;> simp [firstFailingEditor, h, ih]

theorem validateAux_spec (s : Surface) (eds : List Editor) :
    ∀ i : Nat,
      (firstFailingEditor s eds = none →
        validateAux s eds i =
          { result := true, markedInvalid := none, checked := List.range' i eds.length }) ∧
      (∀ k, firstFailingEditor s eds = some k →
        validateAux s eds i =
          { result := false, markedInvalid := some (i + k),
            checked := List.range' i (k + 1) }) := by
  induction eds with
  | nil =>
    intro i
    refine ⟨fun _ => by simp [validateAux], fun k hk => ?_⟩
    simp [firstFailingEditor] at hk
  | cons ed rest ih =>
    intro i
    constructor
    · intro hnone
      rw [firstFailingEditor] at hnone
      by_cases hval : effectiveEditorValid s ed
      · rw [if_pos hval] at hnone
        have hr : firstFailingEditor s rest = none := by
          cases hff : firstFailingEditor s rest <;> simp [hff] at hnone ⊢
        rw [validateAux_cons, if_pos hval, (ih (i + 1)).1 hr]
        simp [List.range'_succ]
      · rw [if_neg hval] at hnone
        exact Option.noConfusion hnone
    · intro k hk
      rw [firstFailingEditor] at hk
      by_cases hval : effectiveEditorValid s ed
      · rw [if_pos hval] at hk
        cases hff : firstFailingEditor s rest with
        | none =>
          rw [hff] at hk
          simp at hk
        | some k' =>
          rw [hff] at hk
          simp only [Option.map_some'] at hk
          have hkk : k = k' + 1 := (Option.some.inj hk).symm
          subst hkk
          rw [validateAux_cons, if_pos hval, (ih (i + 1)).2 k' hff]
          have harith : i + 1 + k' = i + (k' + 1) := by omega
          simp [List.range'_succ, harith]
      · rw [if_neg hval] at hk
        have hk0 : k = 0 := (Option.some.inj hk).symm
        subst hk0
        rw [validateAux_cons, if_neg hval]
        simp [List.range'_succ]

/-- C4: `validate()` walks editors in schema order; a visible external
parameter editor is validated in place of its base editor; the first failure
stops the walk (`checked` covers exactly the editors up to and including the
failing one), marks exactly that editor invalid, and returns `false`;
`validate()` returns `true` iff every editor (or its visible
external-parameter substitute) passes. -/
theorem claim4_validate_short_circuit (s : Surface) :
    ((validateSurface s).result = true ↔
      ∀ ed ∈ s.editors, effectiveEditorValid s ed = true) ∧
    (firstFailingEditor s s.editors = none →
      (validateSurface s).markedInvalid = none ∧
      (validateSurface s).checked = List.range s.editors.length) ∧
    (∀ k, firstFailingEditor s s.editors = some k →
      (validateSurface s).result = false ∧
      (validateSurface s).markedInvalid = some k ∧
      (validateSurface s).checked = List.range (k + 1)) := by
  have hspec := validateAux_spec s s.editors 0
  refine ⟨?_, ?_, ?_⟩
  · rw [← firstFailingEditor_eq_none_iff]
    constructor
    · intro hres
      cases hff : firstFailingEditor s s.editors with
      | none => rfl
      | some k =>
        have h := hspec.2 k hff
        rw [validateSurface] at hres
        rw [h] at hres
        simp at hres
    · intro hff
      rw [validateSurface, hspec.1 hff]
  · intro hff
    rw [validateSurface, hspec.1 hff]
    exact ⟨rfl, by rw [List.range_eq_range']⟩
  · intro k hff
    rw [validateSurface, hspec.2 k hff]
    exact ⟨rfl, by simp, by rw [List.range_eq_range']⟩

def c4Surface : Surface :=
  mkSurface [] (some [])
    [{ propertyName := "a", undefinedValue := .undef, validateResult := true },
     { propertyName := "b", undefinedValue := .undef, validateResult := false },
     { propertyName := "c", undefinedValue := .undef, validateResult := true }] [] false

/-- Witness for C4 at a concrete surface whose second editor fails. -/
theorem claim4_witness :
    (validateSurface c4Surface).result = false ∧
    (validateSurface c4Surface).markedInvalid = some 1 ∧
    (validateSurface c4Surface).checked = List.range 2 :=
  (claim4_validate_short_circuit c4Surface).2.2 1 (by decide)

/-!
Claims C5 and C10.
-/

theorem setPropertyValue_events (s : Surface) (p : String) (v : JSValue)
    (sup force : Bool) :
    (setPropertyValue s p v sup force).events =
      s.events ++
        (if !sup then
          (List.range s.editors.length).map (fun i => SEvent.editorNotified i p v) ++
            (if s.hasOnChange then [SEvent.changeCallback p v] else [])
         else []) ++
        (if force && (findPropertyEditor s p).isSome then [SEvent.displayUpdated p v]
         else []) := rfl

theorem setPropertyValue_marked (s : Surface) (p : String) (v : JSValue)
    (sup force : Bool) :
    (setPropertyValue s p v sup force).marked =
      if !sup then
        markPropertyChanged s.marked p
          ((objGet s.originalValues p == .undef) ||
            !(comparePropertyValues (objGet s.originalValues p) v))
      else s.marked := rfl

theorem mem_markPropertyChanged_true (m : List String) (p : String) :
    p ∈ markPropertyChanged m p true := by
  rw [markPropertyChanged, if_pos rfl]
  by_cases h : p ∈ m <;> simp [h]

/-- C5: `setPropertyValue(p, v)` writes `v` into the values map — an
`undefined` `v` deletes the key (reading `p` back yields `undefined`, and a
present defined entry is removed) rather than storing a sentinel — leaving
every other key untouched; unless change events are suppressed it then
notifies every editor, in order and including the owner of `p`, and only
after all notifications invokes the configured `onChange` callback; with
events suppressed no notification and no callback is emitted. -/
theorem claim5_setPropertyValue_notifications (s : Surface) (p : String)
    (v : JSValue) (force : Bool) :
    objGet (setPropertyValue s p v false force).values p = v ∧
    (∀ q, q ≠ p →
      objLookup (setPropertyValue s p v false force).values q = objLookup s.values q) ∧
    (v = .undef → ¬ objGet s.values p = .undef →
      objLookup (setPropertyValue s p v false force).values p = none) ∧
    (setPropertyValue s p v false force).events =
      s.events ++
        ((List.range s.editors.length).map (fun i => SEvent.editorNotified i p v) ++
          (if s.hasOnChange then [SEvent.changeCallback p v] else [])) ++
        (if force && (findPropertyEditor s p).isSome then [SEvent.displayUpdated p v]
         else []) ∧
    (∀ i, i < s.editors.length →
      SEvent.editorNotified i p v ∈ (setPropertyValue s p v false force).events) ∧
    (setPropertyValue s p v true force).events =
      s.events ++
        (if force && (findPropertyEditor s p).isSome then [SEvent.displayUpdated p v]
         else []) := by
  have hevents := setPropertyValue_events s p v false force
  refine ⟨?_, ?_, ?_, ?_, ?_, ?_⟩
  · rw [setPropertyValue_values]
    by_cases hv : v = .undef
    · subst hv
      simp only [beq_self_eq_true, Bool.not_true, Bool.false_eq_true, if_false]
      by_cases hget : objGet s.values p = .undef
      · rw [if_neg (by simp [hget])]
        exact hget
      · rw [if_pos (by simp [hget])]
        rw [objGet_eq_getD_objLookup, objLookup_objDelete_self]
        rfl
    · rw [if_pos (by simp [hv])]
      exact objGet_objSet_self _ _ _
  · intro q hq
    rw [setPropertyValue_values]
    by_cases hv : v = .undef
    · simp only [hv, beq_self_eq_true, Bool.not_true, Bool.false_eq_true, if_false]
      by_cases hget : objGet s.values p = .undef
      · rw [if_neg (by simp [hget])]
      · rw [if_pos (by simp [hget])]
        exact objLookup_objDelete_ne s.values p q hq
    · rw [if_pos (by simp [hv])]
      exact objLookup_objSet_ne s.values p q v hq
  · intro hv hget
    subst hv
    rw [setPropertyValue_values]
    simp only [beq_self_eq_true, Bool.not_true, Bool.false_eq_true, if_false]
    rw [if_pos (by simp [hget])]
    exact objLookup_objDelete_self s.values p
  · simpa using hevents
  · intro i hi
    rw [hevents]
    simp only [Bool.not_false, if_pos]
    refine List.mem_append_left _ (List.mem_append_right _ (List.mem_append_left _ ?_))
    exact List.mem_map_of_mem _ (List.mem_range.mpr hi)
  · rw [setPropertyValue_events]
    simp

def c5Surface : Surface :=
  mkSurface [] (some [])
    [{ propertyName := "a", undefinedValue := .undef, validateResult := true },
     { propertyName := "b", undefinedValue := .undef, validateResult := true }] [] true

/-- Witness for C5 at a concrete surface with two editors and a configured
change callback. -/
theorem claim5_witness :
    objGet (setPropertyValue c5Surface ("a") (.num 7) false false).values ("a") = .num 7 ∧
    (setPropertyValue c5Surface ("a") (.num 7) false false).events =
      [SEvent.editorNotified 0 ("a") (.num 7), SEvent.editorNotified 1 ("a") (.num 7),
       SEvent.changeCallback ("a") (.num 7)] := by
  have h := claim5_setPropertyValue_notifications c5Surface ("a") (.num 7) false
  refine ⟨h.1, ?_⟩
  rw [h.2.2.2.1]
  rfl

/-- C10: when `p` was absent from the `originalValues` snapshot, every
unsuppressed `setPropertyValue(p, v)` marks the row of `p` as changed, for
every `v` including `undefined` — and deleting an already-absent key leaves
the values map unchanged while still setting the marker — because the
`originalValues[p] === undefined` disjunct short-circuits before any value
comparison. -/
theorem claim10_absent_original_marks_changed (s : Surface) (p : String)
    (v : JSValue) (force : Bool) (h : objGet s.originalValues p = .undef) :
    p ∈ (setPropertyValue s p v false force).marked ∧
    (v = .undef → objGet s.values p = .undef →
      (setPropertyValue s p v false force).values = s.values) := by
  constructor
  · rw [setPropertyValue_marked]
    simp only [Bool.not_false, if_pos]
    have hch : ((objGet s.originalValues p == JSValue.undef) ||
        !(comparePropertyValues (objGet s.originalValues p) v)) = true := by
      simp [h]
    rw [hch]
    exact mem_markPropertyChanged_true s.marked p
  · intro hv hget
    subst hv
    rw [setPropertyValue_values]
    simp [hget]

def c10Surface : Surface := mkSurface [] (some [("b", .num 2)]) [] [] false

/-- Witness for C10: deleting the never-present key `a` still marks it. -/
theorem claim10_witness :
    "a" ∈ (setPropertyValue c10Surface ("a") .undef false false).marked ∧
    (setPropertyValue c10Surface ("a") .undef false false).values = c10Surface.values := by
  have h := claim10_absent_original_marks_changed c10Surface ("a") .undef false (by decide)
  exact ⟨h.1, h.2 rfl (by decide)⟩

/-!
Claim C6.
-/

def c6G1 : InspGroup := .child ("1") (.root ("root"))

def c6G2 : InspGroup := .child ("2") c6G1

def c6Rows : List InspectorRow :=
  [{ id := 10, group := c6G1 }, { id := 20, group := c6G2 }]

def c6Toggle : ToggleGroupOutcome := toggleGroup (findGroupRowsModel c6Rows) true ("1") false

/-- C6 counterexample: an animated collapse of group 1 (whose descendant
group 2 has the rendered row 20) passes `includeDescendants = false` to
`findGroupRows` — the descendant row is *not* selected on a collapse — and
the `setGroupStatus` commit is the first observable event, before any row is
processed, because every animated row step is deferred behind a timer. -/
theorem claim6_counterexample :
    c6Toggle.collapse = true ∧
    c6Toggle.includeDescendantsFlag = false ∧
    c6Toggle.selectedRows = [10] ∧
    ({ id := 20, group := c6G2 } : InspectorRow) ∈ c6Rows ∧
    c6G2.ancestorIndices.contains ("1") = true ∧
    ¬ 20 ∈ c6Toggle.selectedRows ∧
    c6Toggle.events = [TgEvent.setGroupStatus ("1") false, TgEvent.rowToggled 10 true] :=
  ⟨rfl, rfl, rfl, by simp [c6Rows], rfl, by decide, rfl⟩

/-- C6 (amended): `toggleGroup` selects, via `findGroupRows`, the rows
belonging to the toggled group together with its descendant groups' rows
exactly when the transition is an *expansion* (the source passes
`!collapse` as the `includeDescendants` flag); `setGroupStatus` commits the
new state synchronously — on an animated toggle it runs before the deferred
row steps, and only in the no-animation `forceExpand` path are the rows
processed before the commit. -/
theorem claim6_toggleGroup_amended (rows : List InspectorRow) (gi : String)
    (linkExpanded forceExpand : Bool) :
    (toggleGroup (findGroupRowsModel rows) linkExpanded gi forceExpand).collapse =
      (linkExpanded && !forceExpand) ∧
    (toggleGroup (findGroupRowsModel rows) linkExpanded gi forceExpand).selectedRows =
      (rows.filter (fun r => r.group.index == gi ||
        (!(linkExpanded && !forceExpand) && r.group.ancestorIndices.contains gi))).map
        (fun r => r.id) ∧
    (forceExpand = false →
      (toggleGroup (findGroupRowsModel rows) linkExpanded gi forceExpand).events =
        TgEvent.setGroupStatus gi (!(linkExpanded && !forceExpand)) ::
          ((toggleGroup (findGroupRowsModel rows) linkExpanded gi
              forceExpand).selectedRows.reverse.map
            (fun r => TgEvent.rowToggled r (linkExpanded && !forceExpand)))) ∧
    (forceExpand = true →
      (toggleGroup (findGroupRowsModel rows) linkExpanded gi forceExpand).events =
        ((toggleGroup (findGroupRowsModel rows) linkExpanded gi
            forceExpand).selectedRows.reverse.map
          (fun r => TgEvent.rowToggled r false)) ++
          [TgEvent.setGroupStatus gi true]) := by
  refine ⟨rfl, rfl, ?_, ?_⟩
  · intro h
    subst h
    rfl
  · intro h
    subst h
    simp [toggleGroup, expandOrCollapseRows]

/-- Witness for the amended C6: expanding group 1 does include the
descendant row, and the commit precedes the deferred row steps. -/
theorem claim6_witness :
    (toggleGroup (findGroupRowsModel c6Rows) false ("1") false).selectedRows = [10, 20] ∧
    (toggleGroup (findGroupRowsModel c6Rows) false ("1") false).events =
      [TgEvent.setGroupStatus ("1") true, TgEvent.rowToggled 20 false,
       TgEvent.rowToggled 10 false] := by
  have h := claim6_toggleGroup_amended c6Rows ("1") false false
  refine ⟨by rw [h.2.1]; rfl, ?_⟩
  rw [h.2.2.1 rfl]
  rfl

/-!
Claim C7.
-/

theorem level_le_of_mem_getGroupAndAllParents (g x : InspGroup)
    (hx : x ∈ g.getGroupAndAllParents) : x.level ≤ g.level := by
  induction g with
  | root i =>
    rw [InspGroup.getGroupAndAllParents] at hx
    simp at hx
    subst hx
    exact Nat.le_refl _
  | child i p ih =>
    rw [InspGroup.getGroupAndAllParents] at hx
    rcases List.mem_cons.mp hx with h | h
    · subst h
      exact Nat.le_refl _
    · exact Nat.le_trans (ih h) (Nat.le_succ _)

theorem getGroupAndAllParents_pairwise (g : InspGroup) :
    List.Pairwise (fun a b : InspGroup => b.level < a.level) g.getGroupAndAllParents := by
  induction g with
  | root i => simp [InspGroup.getGroupAndAllParents]
  | child i p ih =>
    rw [InspGroup.getGroupAndAllParents]
    refine List.Pairwise.cons ?_ ih
    intro x hx
    have hle := level_le_of_mem_getGroupAndAllParents p x hx
    simp only [InspGroup.level]
    omega

def c7G1 : InspGroup := .child ("1") (.root ("root"))

def c7G2 : InspGroup := .child ("2") c7G1

def c7FindRow : InspGroup → Option Nat := fun g =>
  if g.index = "1" then some 100 else if g.index = "2" then some 200 else none

def c7Calls : List ToggleCall :=
  expandGroupParents c7FindRow (fun _ => false) (fun _ _ => []) c7G2

/-- C7 counterexample: `expandGroupParents(g)` iterates
`getGroupAndAllParents()` — the group *and* its parents — down to index 0,
so on group 2 (inside group 1, whose rows are 200 and 100) it toggles not
only the ancestor group 1 but also group 2 itself, which is not one of its
ancestors. -/
theorem claim7_counterexample :
    c7Calls.map (fun c => c.group) = [c7G1, c7G2] ∧
    c7Calls.map (fun c => c.row) = [100, 200] ∧
    c7G2.ancestorIndices = ["1", "root"] ∧
    ¬ "2" ∈ c7G2.ancestorIndices ∧
    (∃ c ∈ c7Calls, c.group = c7G2) := by
  refine ⟨rfl, rfl, rfl, by decide, ?_⟩
  have h : c7Calls.map (fun c => c.group) = [c7G1, c7G2] := rfl
  have : c7G2 ∈ c7Calls.map (fun c => c.group) := by rw [h]; simp
  obtain ⟨c, hc, hg⟩ := List.mem_map.mp this
  exact ⟨c, hc, hg⟩

/-- C7 (amended): `expandGroupParents(g)` force-expands, among `g` itself
and its ancestors, exactly those whose group row exists, from the outermost
ancestor down to `g` itself, in that order (strictly increasing nesting
level); each toggle is a forced expansion with no animation, whose rows are
processed synchronously before its `setGroupStatus` commit. -/
theorem claim7_expandGroupParents_amended (findRow : InspGroup → Option Nat)
    (linkState : Nat → Bool) (findRows : String → Bool → List Nat) (g : InspGroup) :
    (∀ c ∈ expandGroupParents findRow linkState findRows g,
      c.group ∈ g.getGroupAndAllParents ∧ findRow c.group = some c.row) ∧
    (∀ gr ∈ g.getGroupAndAllParents, ∀ r, findRow gr = some r →
      ∃ c ∈ expandGroupParents findRow linkState findRows g,
        c.group = gr ∧ c.row = r) ∧
    List.Pairwise (fun a b : ToggleCall => a.group.level < b.group.level)
      (expandGroupParents findRow linkState findRows g) ∧
    (∀ c ∈ expandGroupParents findRow linkState findRows g,
      c.outcome = toggleGroup findRows (linkState c.row) c.group.index true ∧
      c.outcome.collapse = false ∧
      c.outcome.events =
        (c.outcome.selectedRows.reverse.map (fun r => TgEvent.rowToggled r false)) ++
          [TgEvent.setGroupStatus c.group.index true]) := by
  refine ⟨?_, ?_, ?_, ?_⟩
  · intro c hc
    obtain ⟨gr, hgr, hmap⟩ := List.mem_filterMap.mp hc
    obtain ⟨r, hr, hcc⟩ := Option.map_eq_some'.mp hmap
    subst hcc
    exact ⟨List.mem_reverse.mp hgr, by simpa using hr⟩
  · intro gr hgr r hr
    refine ⟨⟨r, gr, toggleGroup findRows (linkState r) gr.index true⟩, ?_, rfl, rfl⟩
    exact List.mem_filterMap.mpr ⟨gr, List.mem_reverse.mpr hgr, by rw [hr]; rfl⟩
  · have hrev : List.Pairwise (fun a b : InspGroup => a.level < b.level)
        g.getGroupAndAllParents.reverse :=
      List.pairwise_reverse.mpr (getGroupAndAllParents_pairwise g)
    refine List.pairwise_filterMap.mpr (hrev.imp ?_)
    intro a b hab c hc d hd
    simp only [Option.mem_def, Option.map_eq_some'] at hc hd
    obtain ⟨r1, _, h1⟩ := hc
    obtain ⟨r2, _, h2⟩ := hd
    subst h1
    subst h2
    exact hab
  · intro c hc
    obtain ⟨gr, hgr, hmap⟩ := List.mem_filterMap.mp hc
    obtain ⟨r, hr, hcc⟩ := Option.map_eq_some'.mp hmap
    subst hcc
    refine ⟨rfl, ?_, ?_⟩
    · simp [toggleGroup]
    · simp [toggleGroup, expandOrCollapseRows]

/-- Witness for the amended C7 at the concrete two-level chain. -/
theorem claim7_witness :
    (∃ c ∈ c7Calls, c.group = c7G1 ∧ c.row = 100) ∧
    List.Pairwise (fun a b : ToggleCall => a.group.level < b.group.level) c7Calls := by
  have h := claim7_expandGroupParents_amended c7FindRow (fun _ => false)
    (fun _ _ => []) c7G2
  refine ⟨?_, h.2.2.1⟩
  exact h.2.1 c7G1 (by rw [show c7G2.getGroupAndAllParents =
    [c7G2, c7G1, .root ("root")] from rfl]; simp) 100 rfl

/-!
Claim C8.
-/

theorem insertAfter_of_not_mem_left (pre rest : List Nat) (anchor c : Nat)
    (h : ¬ anchor ∈ pre) :
    insertAfter (pre ++ anchor :: rest) anchor c = pre ++ anchor :: c :: rest := by
  induction pre with
  | nil => simp [insertAfter]
  | cons x xs ih =>
    have hx : ¬ x = anchor := fun hh => h (by simp [hh])
    simp only [List.cons_append, insertAfter, hx, if_false, List.append_eq]
    rw [ih (fun hm => h (by simp [hm]))]

theorem mergeChildSurfaceRows_cons (parent : List Nat) (anchor c : Nat)
    (cs : List Nat) :
    mergeChildSurfaceRows parent anchor (c :: cs) =
      insertAfter (mergeChildSurfaceRows parent anchor cs) anchor c := by
  rw [mergeChildSurfaceRows, mergeChildSurfaceRows, List.reverse_cons, List.foldl_append]
  rfl

/-- C8: `mergeChildSurface` inserts the child's rows immediately after the
anchor row of the parent sequence, iterating over them in reverse order, so
that afterwards they appear in their original child order directly following
the anchor. -/
theorem claim8_mergeChildSurface_order (pre post childRows : List Nat) (anchor : Nat)
    (hpre : ¬ anchor ∈ pre) (hchild : ¬ anchor ∈ childRows) :
    mergeChildSurfaceRows (pre ++ anchor :: post) anchor childRows =
      pre ++ anchor :: (childRows ++ post) := by
  induction childRows with
  | nil => simp [mergeChildSurfaceRows]
  | cons c cs ih =>
    have hcs : ¬ anchor ∈ cs := fun hm => hchild (by simp [hm])
    rw [mergeChildSurfaceRows_cons, ih hcs,
      insertAfter_of_not_mem_left pre (cs ++ post) anchor c hpre]
    simp

/-- Witness for C8 at concrete row sequences. -/
theorem claim8_witness :
    mergeChildSurfaceRows [1, 2, 3] 2 [10, 20] = [1, 2, 10, 20, 3] := by
  have h := claim8_mergeChildSurface_order [1] [3] [10, 20] 2 (by decide) (by decide)
  simpa using h

/-!
Claim C9.
-/

/-- C9: with the `"string"` kind registered (as the repository's editor files
do), building the surface's editors fails — synchronously, before the editor
would be instantiated — iff some `property` item carries an editor-kind tag
absent from the registry; a present tag or an absent one (defaulting to
`"string"`) builds without error. -/
theorem claim9_unknown_editor_type_fails_build (registry : List String)
    (props : List PropertyDef) (hstr : "string" ∈ registry) :
    (∃ l, buildEditors registry props = Except.ok l) ↔
      ∀ pd ∈ props, pd.itemType = "property" → ∀ t, pd.type = some t → t ∈ registry := by
  induction props with
  | nil => simp [buildEditors]
  | cons pd rest ih =>
    by_cases hty : pd.itemType = "property"
    · rw [buildEditors, if_pos hty]
      cases hpt : pd.type with
      | none =>
        have hval : validateEditorType registry none = Except.ok () := by
          simp [validateEditorType, hstr]
        rw [hval]
        cases hrec : buildEditors registry rest with
        | error e =>
          rw [hrec] at ih
          simp only [reduceCtorEq, exists_false, false_iff] at ih ⊢
          intro hall
          exact ih (fun pd' h1 h2 t h3 => hall pd' (by simp [h1]) h2 t h3)
        | ok l =>
          rw [hrec] at ih
          simp only [Except.ok.injEq, exists_eq'] at ih ⊢
          constructor
          · intro _ pd' hmem h2 t h3
            rcases List.mem_cons.mp hmem with h | h
            · subst h
              rw [hpt] at h3
              exact Option.noConfusion h3
            · exact ih.mp trivial pd' h h2 t h3
          · intro _
            trivial
      | some t =>
        by_cases ht : t ∈ registry
        · have hval : validateEditorType registry (some t) = Except.ok () := by
            simp [validateEditorType, ht]
          rw [hval]
          cases hrec : buildEditors registry rest with
          | error e =>
            rw [hrec] at ih
            simp only [reduceCtorEq, exists_false, false_iff] at ih ⊢
            intro hall
            exact ih (fun pd' h1 h2 t' h3 => hall pd' (by simp [h1]) h2 t' h3)
          | ok l =>
            rw [hrec] at ih
            simp only [Except.ok.injEq, exists_eq'] at ih ⊢
            constructor
            · intro _ pd' hmem h2 t' h3
              rcases List.mem_cons.mp hmem with h | h
              · subst h
                rw [hpt] at h3
                rw [Option.some.inj h3] at ht
                exact ht
              · exact ih.mp trivial pd' h h2 t' h3
            · intro _
              trivial
        · have hval : validateEditorType registry (some t) =
              Except.error ("The Inspector editor class " ++ t ++ " is not defined in the $.oc.inspector.propertyEditors namespace.") := by
            simp [validateEditorType, ht]
          rw [hval]
          simp only [reduceCtorEq, exists_false, false_iff]
          intro hall
          exact ht (hall pd (by simp) hty t hpt)
    · rw [buildEditors, if_neg hty]
      rw [ih]
      constructor
      · intro h pd' hmem h2 t h3
        rcases List.mem_cons.mp hmem with hh | hh
        · subst hh
          exact absurd h2 hty
        · exact h pd' hh h2 t h3
      · intro h pd' hmem h2 t h3
        exact h pd' (by simp [hmem]) h2 t h3

def c9StringProp : PropertyDef :=
  { property := some ("title"), itemType := "property", groupIndex := none,
    title := "Title", type := none, default := none, showExternalParam := false }

def c9CheckboxProp : PropertyDef :=
  { property := some ("visible"), itemType := "property", groupIndex := none,
    title := "Visible", type := some ("checkbox"), default := none,
    showExternalParam := false }

/-- Witness for C9: a registry holding `string` and `checkbox` builds both a
tagless property and a `checkbox` property without error. -/
theorem claim9_witness :
    ∃ l, buildEditors ["string", "checkbox"] [c9StringProp, c9CheckboxProp] =
      Except.ok l :=
  (claim9_unknown_editor_type_fails_build ["string", "checkbox"]
    [c9StringProp, c9CheckboxProp] (by decide)).mpr (by decide)
